import Mathlib

/-!
Shallow embedding of the scel-to-rime converter (src/scel_transfer.py).

The byte stream of the open file is modelled as a list of byte values
(`List Nat`, each entry below 256 in practice) together with an explicit
cursor position.  Python's `f.read(n)` returns at most `n` bytes, silently
fewer when the stream ends; `f.seek` moves the cursor; `f.tell` is the
cursor.  Decoded text is modelled as the list of Unicode code points.
Python exceptions are modelled with `Except` over an explicit error type.
-/

namespace Scel

/-- Decoded text: a list of Unicode code points. -/
abbrev Str := List Nat

/-- Exceptions the Python decoder can raise, one constructor per raise
site kind: a short read inside `struct.unpack` (`struct.error`), a failed
UTF-16LE decode (`UnicodeDecodeError`), the sequential-index assertion in
`syllable_table` (`AssertionError`), the unknown-mask `ValueError` in
`get_hz_offset`, the unregistered-syllable `ValueError` in `word_table`,
the `IndexError` from indexing a short header, the `ValueError` raised by
`list.index` in `unique_words`, and exhaustion of the recursion fuel used
to model the unbounded Python loops. -/
inductive Err where
  | structError
  | unicodeDecodeError
  | assertionError
  | unknownMask (m : Nat)
  | unknownSyllableIndex (i : Nat)
  | indexError
  | valueErrorIndex
  | fuelOut
  deriving DecidableEq

/-- Python `f.read(n)` from cursor `pos`: the bytes actually obtained
(at most `n`, fewer at end of stream) and the new cursor. -/
def readBytes (data : List Nat) (pos n : Nat) : List Nat × Nat :=
  let chunk := (data.drop pos).take n
  (chunk, pos + chunk.length)

/-- Python `read_uint16`: `struct.unpack("<H", f.read(2))`; raises
`struct.error` when fewer than 2 bytes were obtained. -/
def read_uint16 (data : List Nat) (pos : Nat) : Except Err (Nat × Nat) :=
  match (data.drop pos).take 2 with
  | [lo, hi] => .ok (lo + 256 * hi, pos + 2)
  | _ => .error .structError

/-- Pair up bytes into little-endian 16-bit code units; `none` on an odd
number of bytes (CPython raises `UnicodeDecodeError` for truncated data). -/
def utf16Units : List Nat → Option (List Nat)
  | [] => some []
  | [_] => none
  | lo :: hi :: rest => (utf16Units rest).map fun us => (lo + 256 * hi) :: us

/-- Combine UTF-16 code units into code points: a high surrogate must be
followed by a low surrogate (together one supplementary code point); a
lone surrogate of either kind fails, as in CPython's strict decoder. -/
def decodeUnits : List Nat → Option (List Nat)
  | [] => some []
  | u :: rest =>
    if 0xD800 ≤ u ∧ u ≤ 0xDBFF then
      match rest with
      | [] => none
      | v :: rest2 =>
        if 0xDC00 ≤ v ∧ v ≤ 0xDFFF then
          (decodeUnits rest2).map fun cs =>
            (0x10000 + (u - 0xD800) * 0x400 + (v - 0xDC00)) :: cs
        else none
    else if 0xDC00 ≤ u ∧ u ≤ 0xDFFF then none
    else (decodeUnits rest).map fun cs => u :: cs

/-- Python `bytes.decode("UTF-16LE")` with strict error handling. -/
def decodeUtf16 (bytes : List Nat) : Option Str :=
  (utf16Units bytes).bind decodeUnits

/-- Python `s.rstrip("\0")`: remove trailing NUL code points. -/
def rstripNul (cs : Str) : Str :=
  (cs.reverse.dropWhile (fun c => c == 0)).reverse

/-- Python `read_utf16_str(f, offset, size)`: optional seek, then read up
to `size` bytes, decode as UTF-16LE and strip trailing NULs.  `offset` is
`none` for the Python default `-1` (no seek). -/
def read_utf16_str (data : List Nat) (offset : Option Nat) (pos size : Nat) :
    Except Err (Str × Nat) :=
  let p0 := offset.getD pos
  let r := readBytes data p0 size
  match decodeUtf16 r.1 with
  | some cs => .ok (rstripNul cs, r.2)
  | none => .error .unicodeDecodeError

/-- Python `get_hz_offset`: read 128 bytes, inspect the byte at index 4 of
what was obtained, and map mask `0x44` to offset `0x2628`, mask `0x45` to
offset `0x26C4`; any other mask raises `ValueError`.  Indexing a chunk
shorter than 5 bytes raises `IndexError`. -/
def get_hz_offset (data : List Nat) (pos : Nat) : Except Err (Nat × Nat) :=
  let r := readBytes data pos 128
  match r.1[4]? with
  | none => .error .indexError
  | some mask =>
    if mask = 0x44 then .ok (0x2628, r.2)
    else if mask = 0x45 then .ok (0x26C4, r.2)
    else .error (.unknownMask mask)

/-- The sentinel syllable text: the code points of the text zuo, the last
syllable of the table. -/
def zuo : Str := [122, 117, 111]

/-- The loop body of Python `syllable_table`, with explicit fuel for the
unbounded `while True`: read a 16-bit index, a 16-bit byte length and that
many bytes of UTF-16LE syllable text; assert the index equals the running
counter (raising `AssertionError` otherwise); record the pair; stop after
the sentinel syllable. -/
def syllableLoop (data : List Nat) :
    Nat → Nat → Nat → List (Nat × Str) → Except Err (List (Nat × Str) × Nat)
  | 0, _, _, _ => .error .fuelOut
  | fuel + 1, pos, cnt, acc =>
    match read_uint16 data pos with
    | .error e => .error e
    | .ok (index, p1) =>
      match read_uint16 data p1 with
      | .error e => .error e
      | .ok (length, p2) =>
        match read_utf16_str data none p2 length with
        | .error e => .error e
        | .ok (syl, p3) =>
          if index = cnt then
            if syl = zuo then .ok (acc ++ [(index, syl)], p3)
            else syllableLoop data fuel p3 (cnt + 1) (acc ++ [(index, syl)])
          else .error .assertionError

/-- Python `syllable_table`: seek to `0x1540 + 4` and run the loop from
counter 0.  Every loop iteration consumes at least 4 bytes, so fuel
`data.length + 1` is never exhausted before the stream is. -/
def syllable_table (data : List Nat) : Except Err (List (Nat × Str) × Nat) :=
  syllableLoop data (data.length + 1) (0x1540 + 4) 0 []

/-- One decoded word entry: the word text, the joined romanization it
shares with its homophone block, and, only when the frequency option is
on, the decimal text of the 16-bit frequency. -/
structure WordRec where
  word : Str
  spell : Str
  freq : Option Str
  deriving DecidableEq

/-- Python `str(n)` for a natural number: the code points of the decimal
rendering. -/
def decStr (n : Nat) : Str := (Nat.toDigits 10 n).map Char.toNat

/-- Python `sep.join` for a one-character separator. -/
def joinSep (sep : Nat) : List Str → Str
  | [] => []
  | [x] => x
  | x :: y :: rest => x ++ sep :: joinSep sep (y :: rest)

/-- Cursor after Python `f.read(n)` when the bytes read are discarded. -/
def skipBytes (data : List Nat) (pos n : Nat) : Nat :=
  (readBytes data pos n).2

/-- The raw 16-bit syllable-index sequence of one homophone block: `k`
consecutive little-endian 16-bit reads (used to state properties of the
block; the decoder itself interleaves the lookup, see `readSyllables`). -/
def readIndices (data : List Nat) : Nat → Nat → Except Err (List Nat × Nat)
  | 0, pos => .ok ([], pos)
  | k + 1, pos =>
    match read_uint16 data pos with
    | .error e => .error e
    | .ok (i, p1) =>
      match readIndices data k p1 with
      | .error e => .error e
      | .ok (is, p2) => .ok (i :: is, p2)

/-- The syllable-index loop of Python `word_table`: read each 16-bit
index, raise `ValueError` if it is not a key of the syllable mapping, and
collect the mapped romanizations in order. -/
def readSyllables (data : List Nat) (smap : List (Nat × Str)) :
    Nat → Nat → Except Err (List Str × Nat)
  | 0, pos => .ok ([], pos)
  | k + 1, pos =>
    match read_uint16 data pos with
    | .error e => .error e
    | .ok (i, p1) =>
      match smap.lookup i with
      | none => .error (.unknownSyllableIndex i)
      | some syl =>
        match readSyllables data smap k p1 with
        | .error e => .error e
        | .ok (syls, p2) => .ok (syl :: syls, p2)

/-- The word loop of Python `word_table`: for each of the `k` homophones,
read a 16-bit byte count and that many bytes of UTF-16LE word text, then
the 12-byte extension region — with the frequency flag on, 2 discarded
bytes, a 16-bit frequency and 8 discarded bytes; with it off, 12
discarded bytes — and append the record. -/
def readWords (data : List Nat) (spell : Str) (useFreq : Bool) :
    Nat → Nat → Except Err (List WordRec × Nat)
  | 0, pos => .ok ([], pos)
  | k + 1, pos =>
    match read_uint16 data pos with
    | .error e => .error e
    | .ok (char_cnt, p1) =>
      match read_utf16_str data none p1 char_cnt with
      | .error e => .error e
      | .ok (word, p2) =>
        match useFreq with
        | true =>
          match read_uint16 data (skipBytes data p2 2) with
          | .error e => .error e
          | .ok (freq, p4) =>
            match readWords data spell useFreq k (skipBytes data p4 8) with
            | .error e => .error e
            | .ok (ws, p6) => .ok (⟨word, spell, some (decStr freq)⟩ :: ws, p6)
        | false =>
          match readWords data spell useFreq k (skipBytes data p2 12) with
          | .error e => .error e
          | .ok (ws, p4) => .ok (⟨word, spell, none⟩ :: ws, p4)

/-- One homophone block of Python `word_table`: 16-bit word count, 16-bit
syllable byte count, `syllable_cnt / 2` syllable indices resolved through
the mapping and joined with single spaces, then `word_cnt` word entries. -/
def parseBlock (data : List Nat) (smap : List (Nat × Str)) (useFreq : Bool)
    (pos : Nat) : Except Err (List WordRec × Nat) :=
  match read_uint16 data pos with
  | .error e => .error e
  | .ok (word_cnt, p1) =>
    match read_uint16 data p1 with
    | .error e => .error e
    | .ok (syllable_cnt, p2) =>
      match readSyllables data smap (syllable_cnt / 2) p2 with
      | .error e => .error e
      | .ok (syls, p3) => readWords data (joinSep 32 syls) useFreq word_cnt p3

/-- The `while f.tell() != file_size` loop of Python `word_table`, with
explicit fuel: stop with the accumulated records exactly when the cursor
equals `file_size`, otherwise parse one homophone block and continue. -/
def wordLoop (data : List Nat) (file_size : Nat) (smap : List (Nat × Str))
    (useFreq : Bool) : Nat → Nat → List WordRec → Except Err (List WordRec × Nat)
  | 0, pos, acc =>
    if pos = file_size then .ok (acc, pos) else .error .fuelOut
  | fuel + 1, pos, acc =>
    if pos = file_size then .ok (acc, pos)
    else
      match parseBlock data smap useFreq pos with
      | .error e => .error e
      | .ok (ws, p1) => wordLoop data file_size smap useFreq fuel p1 (acc ++ ws)

/-- Python `word_table`: seek to the word-table offset and run the block
loop; only the record list is returned.  Every loop iteration consumes at
least 4 bytes, so fuel `data.length + 1` is never exhausted before the
stream is. -/
def word_table (data : List Nat) (file_size hz_offset : Nat)
    (smap : List (Nat × Str)) (useFreq : Bool) : Except Err (List WordRec) :=
  match wordLoop data file_size smap useFreq (data.length + 1) hz_offset [] with
  | .error e => .error e
  | .ok (ws, _) => .ok ws

/-- Python `readlines` on a text whose characters are code points: split
after each newline, keeping the newline at the end of each line; a final
fragment without a newline is its own line. -/
def splitLinesAux : Str → Str → List Str
  | [], cur => if cur = [] then [] else [cur.reverse]
  | c :: rest, cur =>
    if c = 10 then (10 :: cur).reverse :: splitLinesAux rest []
    else splitLinesAux rest (c :: cur)

/-- Split a file content into its lines, Python `readlines` style. -/
def splitLines (content : Str) : List Str := splitLinesAux content []

/-- The code points of the header terminator line of a rime dictionary
file: three dots followed by a newline. -/
def ellipsisLine : Str := [46, 46, 46, 10]

/-- Python `line.split("\t")[0]`: the characters before the first tab. -/
def splitTabFirst (line : Str) : Str := line.takeWhile (fun c => c != 9)

/-- ASCII whitespace test approximating Python `str.strip()` emptiness. -/
def isSpaceChar (c : Nat) : Bool :=
  c == 32 || c == 9 || c == 10 || c == 13 || c == 11 || c == 12

/-- The inner `_words_set` of Python `unique_words`: find the header
terminator line (raising `ValueError` when absent, as `list.index` does),
drop a trailing blank line, and take the first tab field of every line
after the terminator.  Note the Python slip kept here: the terminator
index is computed on the original line list but applied after the
trailing blank line was dropped. -/
def wordsSet (content : Str) : Except Err (List Str) :=
  let lines := splitLines content
  match lines.findIdx? (fun l => l == ellipsisLine) with
  | none => .error .valueErrorIndex
  | some index =>
    let lines2 :=
      match lines.getLast? with
      | some last => if last.all isSpaceChar then lines.dropLast else lines
      | none => lines
    .ok ((lines2.drop (index + 1)).map splitTabFirst)

/-- Python `unique_words`: for each existing file of the target directory
in listing order, drop every record whose word already appears as a first
tab field of that file. -/
def unique_words : List (Str × Str) → List WordRec → Except Err (List WordRec)
  | [], records => .ok records
  | (_, content) :: rest, records =>
    match wordsSet content with
    | .error e => .error e
    | .ok ws => unique_words rest (records.filter (fun r => !(ws.contains r.word)))

/-- The tuple a Python word record denotes: two fields, or three when the
frequency text is present. -/
def recFields (r : WordRec) : List Str :=
  match r.freq with
  | some f => [r.word, r.spell, f]
  | none => [r.word, r.spell]

/-- Python `to_raw_txt`: tab-join each record's fields, newline-join the
lines. -/
def to_raw_txt (records : List WordRec) : Str :=
  joinSep 10 (records.map (fun r => joinSep 9 (recFields r)))

/-- Writing a file into a directory modelled as an association list from
file name to content: overwrite an existing entry, else append. -/
def fsWrite (dir : List (Str × Str)) (name : Str) (content : Str) :
    List (Str × Str) :=
  if dir.any (fun e => e.1 == name) then
    dir.map (fun e => if e.1 == name then (e.1, content) else e)
  else dir ++ [(name, content)]

/-- The code points of the file name suffix dot dict dot yaml. -/
def dictYamlSuffix : Str := [46, 100, 105, 99, 116, 46, 121, 97, 109, 108]

/-- Python `process_rime_dict`, with the target directory `cn_dicts`
modelled as an association list from file name to content: deduplicate
the records against every existing file, return the directory unchanged
when nothing is left, otherwise write the header plus the serialized
remainder to the dictionary file named after the dictionary. -/
def process_rime_dict (dict_name : Str) (records : List WordRec)
    (header : Str) (dir : List (Str × Str)) : Except Err (List (Str × Str)) :=
  match unique_words dir records with
  | .error e => .error e
  | .ok uniq =>
    if uniq.length = 0 then .ok dir
    else .ok (fsWrite dir (dict_name ++ dictYamlSuffix) (header ++ 10 :: to_raw_txt uniq))

theorem take_two_eq (data : List Nat) (pos : Nat) (h : pos + 2 ≤ data.length) :
    (data.drop pos).take 2 = [data.getD pos 0, data.getD (pos + 1) 0] := by
  have h1 : pos < data.length := by omega
  have h2 : pos + 1 < data.length := by omega
  rw [List.drop_eq_getElem_cons h1, List.drop_eq_getElem_cons h2,
    List.getD_eq_getElem data 0 h1, List.getD_eq_getElem data 0 h2]
  rfl

theorem read_uint16_eq_ok (data : List Nat) (pos : Nat) (h : pos + 2 ≤ data.length) :
    read_uint16 data pos =
      Except.ok (data.getD pos 0 + 256 * data.getD (pos + 1) 0, pos + 2) := by
  unfold read_uint16
  rw [take_two_eq data pos h]

theorem read_uint16_eq_error (data : List Nat) (pos : Nat)
    (h : data.length < pos + 2) :
    read_uint16 data pos = Except.error Err.structError := by
  unfold read_uint16
  have hlen : ((data.drop pos).take 2).length ≤ 1 := by
    simp only [List.length_take, List.length_drop]
    omega
  rcases hc : (data.drop pos).take 2 with _ | ⟨a, _ | ⟨b, t⟩⟩
  · rfl
  · rfl
  · rw [hc] at hlen
    simp at hlen

theorem read_uint16_ok_inv {data : List Nat} {pos v p1 : Nat}
    (h : read_uint16 data pos = Except.ok (v, p1)) :
    p1 = pos + 2 ∧ pos + 2 ≤ data.length ∧
      v = data.getD pos 0 + 256 * data.getD (pos + 1) 0 := by
  by_cases hle : pos + 2 ≤ data.length
  · rw [read_uint16_eq_ok data pos hle] at h
    simp only [Except.ok.injEq, Prod.mk.injEq] at h
    exact ⟨h.2.symm, hle, h.1.symm⟩
  · rw [read_uint16_eq_error data pos (by omega)] at h
    cases h

theorem read_uint16_error_inv {data : List Nat} {pos : Nat} {e : Err}
    (h : read_uint16 data pos = Except.error e) : e = Err.structError := by
  by_cases hle : pos + 2 ≤ data.length
  · rw [read_uint16_eq_ok data pos hle] at h
    cases h
  · rw [read_uint16_eq_error data pos (by omega)] at h
    simpa using h.symm

theorem skipBytes_eq (data : List Nat) (pos n : Nat) :
    skipBytes data pos n = pos + min n (data.length - pos) := by
  simp [skipBytes, readBytes, List.length_take, List.length_drop]

theorem read_utf16_str_eq (data : List Nat) (pos size : Nat) :
    read_utf16_str data none pos size =
      match decodeUtf16 ((data.drop pos).take size) with
      | some cs => Except.ok (rstripNul cs, pos + min size (data.length - pos))
      | none => Except.error Err.unicodeDecodeError := by
  cases hd : decodeUtf16 ((data.drop pos).take size) <;>
    simp [read_utf16_str, readBytes, hd, List.length_take, List.length_drop]

theorem read_utf16_str_ok_inv {data : List Nat} {pos size : Nat} {s : Str}
    {p2 : Nat} (h : read_utf16_str data none pos size = Except.ok (s, p2)) :
    p2 = pos + min size (data.length - pos) := by
  rw [read_utf16_str_eq] at h
  cases hd : decodeUtf16 ((data.drop pos).take size) <;> rw [hd] at h
  · cases h
  · simp only [Except.ok.injEq, Prod.mk.injEq] at h
    exact h.2.symm

theorem read_utf16_str_error_inv {data : List Nat} {pos size : Nat} {e : Err}
    (h : read_utf16_str data none pos size = Except.error e) :
    e = Err.unicodeDecodeError := by
  rw [read_utf16_str_eq] at h
  cases hd : decodeUtf16 ((data.drop pos).take size) <;> rw [hd] at h
  · simpa using h.symm
  · cases h

theorem utf16Units_none_of_odd :
    ∀ (l : List Nat), l.length % 2 = 1 → utf16Units l = none
  | [], h => by simp at h
  | [_], _ => rfl
  | a :: b :: t, h => by
    have ih := utf16Units_none_of_odd t (by simp at h ⊢; omega)
    simp [utf16Units, ih]

theorem head?_dropWhile_zero :
    ∀ (l : List Nat), (l.dropWhile (fun c => c == 0)).head? ≠ some 0
  | [] => by simp [List.dropWhile]
  | c :: t => by
    by_cases hc : c = 0
    · subst hc
      simpa [List.dropWhile] using head?_dropWhile_zero t
    · have hb : (c == 0) = false := by simpa using hc
      simp [List.dropWhile, hb, hc]

theorem rstripNul_no_trailing (cs : Str) : (rstripNul cs).getLast? ≠ some 0 := by
  unfold rstripNul
  rw [List.getLast?_reverse]
  exact head?_dropWhile_zero cs.reverse

theorem readSyllables_ok_inv (data : List Nat) (smap : List (Nat × Str)) :
    ∀ (k pos : Nat) {syls : List Str} {p' : Nat},
      readSyllables data smap k pos = Except.ok (syls, p') →
      pos ≤ p' ∧ (pos ≤ data.length → p' ≤ data.length) := by
  intro k
  induction k with
  | zero =>
    intro pos syls p' h
    simp only [readSyllables, Except.ok.injEq, Prod.mk.injEq] at h
    omega
  | succ k ih =>
    intro pos syls p' h
    simp only [readSyllables] at h
    rcases h1 : read_uint16 data pos with e | ⟨i, p1⟩ <;>
        rw [h1] at h <;> dsimp only [] at h
    · cases h
    · rcases hl : smap.lookup i with _ | syl <;>
        rw [hl] at h <;> dsimp only [] at h
      · cases h
      · rcases hr : readSyllables data smap k p1 with e | ⟨syls2, p2⟩ <;>
          rw [hr] at h <;> dsimp only [] at h
        · cases h
        · simp only [Except.ok.injEq, Prod.mk.injEq] at h
          obtain ⟨hu1, hu2, _⟩ := read_uint16_ok_inv h1
          obtain ⟨hr1, hr2⟩ := ih p1 hr
          omega

theorem readWords_ok_inv (data : List Nat) (spell : Str) (useFreq : Bool) :
    ∀ (k pos : Nat) {ws : List WordRec} {p' : Nat},
      readWords data spell useFreq k pos = Except.ok (ws, p') →
      ws.length = k ∧ (∀ r ∈ ws, r.spell = spell) ∧
        pos ≤ p' ∧ (pos ≤ data.length → p' ≤ data.length) := by
  intro k
  induction k with
  | zero =>
    intro pos ws p' h
    simp only [readWords, Except.ok.injEq, Prod.mk.injEq] at h
    obtain ⟨hw, hp⟩ := h
    subst hw hp
    simp
  | succ k ih =>
    intro pos ws p' h
    simp only [readWords] at h
    rcases h1 : read_uint16 data pos with e | ⟨char_cnt, p1⟩ <;>
        rw [h1] at h <;> dsimp only [] at h
    · cases h
    · rcases h2 : read_utf16_str data none p1 char_cnt with e | ⟨word, p2⟩ <;>
        rw [h2] at h <;> dsimp only [] at h
      · cases h
      · obtain ⟨hu1, hu2, _⟩ := read_uint16_ok_inv h1
        have hs2 := read_utf16_str_ok_inv h2
        cases useFreq with
        | true =>
          dsimp only [] at h
          rcases h3 : read_uint16 data (skipBytes data p2 2) with e | ⟨freq, p4⟩ <;>
            rw [h3] at h <;> dsimp only [] at h
          · cases h
          · rcases h4 : readWords data spell true k (skipBytes data p4 8)
              with e | ⟨ws2, p6⟩ <;> rw [h4] at h <;> dsimp only [] at h
            · cases h
            · simp only [Except.ok.injEq, Prod.mk.injEq] at h
              obtain ⟨hw, hp⟩ := h
              subst hp
              subst hw
              obtain ⟨hlen, hsp, hm1, hm2⟩ := ih (skipBytes data p4 8) h4
              obtain ⟨hu3, hu4, _⟩ := read_uint16_ok_inv h3
              have hk2 := skipBytes_eq data p2 2
              have hk8 := skipBytes_eq data p4 8
              refine ⟨by simpa using hlen, ?_, ?_, ?_⟩
              · intro r hr
                cases hr with
                | head => rfl
                | tail b hr => exact hsp r hr
              · omega
              · omega
        | false =>
          dsimp only [] at h
          rcases h4 : readWords data spell false k (skipBytes data p2 12)
            with e | ⟨ws2, p4⟩ <;> rw [h4] at h <;> dsimp only [] at h
          · cases h
          · simp only [Except.ok.injEq, Prod.mk.injEq] at h
            obtain ⟨hw, hp⟩ := h
            subst hp
            subst hw
            obtain ⟨hlen, hsp, hm1, hm2⟩ := ih (skipBytes data p2 12) h4
            have hk12 := skipBytes_eq data p2 12
            refine ⟨by simpa using hlen, ?_, ?_, ?_⟩
            · intro r hr
              cases hr with
              | head => rfl
              | tail b hr => exact hsp r hr
            · omega
            · omega

theorem error_ne_of_ne {α : Type} {e1 e2 : Err} (h : e1 ≠ e2) :
    (Except.error e1 : Except Err α) ≠ Except.error e2 :=
  fun hc => h (by injection hc)

theorem readIndices_ok_inv (data : List Nat) :
    ∀ (k pos : Nat) {idxs : List Nat} {p' : Nat},
      readIndices data k pos = Except.ok (idxs, p') →
      idxs.length = k ∧ p' = pos + 2 * k := by
  intro k
  induction k with
  | zero =>
    intro pos idxs p' h
    simp only [readIndices, Except.ok.injEq, Prod.mk.injEq] at h
    obtain ⟨h1, h2⟩ := h
    subst h1 h2
    simp
  | succ k ih =>
    intro pos idxs p' h
    simp only [readIndices] at h
    rcases h1 : read_uint16 data pos with e | ⟨i, p1⟩ <;>
      rw [h1] at h <;> dsimp only [] at h
    · cases h
    · rcases h2 : readIndices data k p1 with e | ⟨is, p2⟩ <;>
        rw [h2] at h <;> dsimp only [] at h
      · cases h
      · simp only [Except.ok.injEq, Prod.mk.injEq] at h
        obtain ⟨hi, hp⟩ := h
        subst hp
        subst hi
        obtain ⟨hl, hp2⟩ := ih p1 h2
        obtain ⟨hu1, _, _⟩ := read_uint16_ok_inv h1
        constructor
        · simp [hl]
        · omega

theorem readSyllables_of_readIndices (data : List Nat) (smap : List (Nat × Str)) :
    ∀ (k pos : Nat) {idxs : List Nat} {p' : Nat} {syls : List Str} {q : Nat},
      readIndices data k pos = Except.ok (idxs, p') →
      readSyllables data smap k pos = Except.ok (syls, q) →
      q = p' ∧ syls = idxs.map fun i => (smap.lookup i).getD [] := by
  intro k
  induction k with
  | zero =>
    intro pos idxs p' syls q hi hs
    simp only [readIndices, Except.ok.injEq, Prod.mk.injEq] at hi
    simp only [readSyllables, Except.ok.injEq, Prod.mk.injEq] at hs
    obtain ⟨hi1, hi2⟩ := hi
    obtain ⟨hs1, hs2⟩ := hs
    subst hi1 hi2 hs1 hs2
    simp
  | succ k ih =>
    intro pos idxs p' syls q hi hs
    simp only [readIndices] at hi
    simp only [readSyllables] at hs
    rcases h1 : read_uint16 data pos with e | ⟨i, p1⟩ <;>
      rw [h1] at hi hs <;> dsimp only [] at hi hs
    · cases hi
    · rcases hl : smap.lookup i with _ | syl <;> rw [hl] at hs <;>
        dsimp only [] at hs
      · cases hs
      · rcases h2 : readIndices data k p1 with e | ⟨is, p2⟩ <;>
          rw [h2] at hi <;> dsimp only [] at hi
        · cases hi
        · rcases h3 : readSyllables data smap k p1 with e | ⟨syls2, q2⟩ <;>
            rw [h3] at hs <;> dsimp only [] at hs
          · cases hs
          · simp only [Except.ok.injEq, Prod.mk.injEq] at hi hs
            obtain ⟨hi1, hi2⟩ := hi
            obtain ⟨hs1, hs2⟩ := hs
            subst hi1 hi2 hs1 hs2
            obtain ⟨ih1, ih2⟩ := ih p1 h2 h3
            subst ih1 ih2
            simp [hl]

theorem readSyllables_error_of_find (data : List Nat) (smap : List (Nat × Str)) :
    ∀ (k pos : Nat) {idxs : List Nat} {p' i0 : Nat},
      readIndices data k pos = Except.ok (idxs, p') →
      idxs.find? (fun i => (smap.lookup i).isNone) = some i0 →
      readSyllables data smap k pos =
        Except.error (Err.unknownSyllableIndex i0) := by
  intro k
  induction k with
  | zero =>
    intro pos idxs p' i0 hi hf
    simp only [readIndices, Except.ok.injEq, Prod.mk.injEq] at hi
    obtain ⟨hi1, _⟩ := hi
    subst hi1
    simp at hf
  | succ k ih =>
    intro pos idxs p' i0 hi hf
    simp only [readIndices] at hi
    simp only [readSyllables]
    rcases h1 : read_uint16 data pos with e | ⟨i, p1⟩ <;>
      rw [h1] at hi <;> dsimp only [] at hi
    · cases hi
    · rcases h2 : readIndices data k p1 with e | ⟨is, p2⟩ <;>
        rw [h2] at hi <;> dsimp only [] at hi
      · cases hi
      · simp only [Except.ok.injEq, Prod.mk.injEq] at hi
        obtain ⟨hi1, _⟩ := hi
        subst hi1
        rw [List.find?_cons] at hf
        dsimp only []
        rcases hn : (smap.lookup i).isNone with _ | _
        · rw [hn] at hf
          dsimp only [] at hf
          have hsome : ∃ s, smap.lookup i = some s := by
            rcases hli : smap.lookup i with _ | s
            · rw [hli] at hn; cases hn
            · exact ⟨s, rfl⟩
          obtain ⟨s, hs⟩ := hsome
          rw [hs]
          dsimp only []
          rw [ih p1 h2 hf]
        · rw [hn] at hf
          dsimp only [] at hf
          simp only [Option.some.injEq] at hf
          subst hf
          have hnone : smap.lookup i = none := by
            rcases hli : smap.lookup i with _ | s
            · rfl
            · rw [hli] at hn; cases hn
          rw [hnone]

theorem readSyllables_ne_fuelOut (data : List Nat) (smap : List (Nat × Str)) :
    ∀ (k pos : Nat),
      readSyllables data smap k pos ≠ Except.error Err.fuelOut := by
  intro k
  induction k with
  | zero =>
    intro pos
    simp [readSyllables]
  | succ k ih =>
    intro pos
    simp only [readSyllables]
    rcases h1 : read_uint16 data pos with e | ⟨i, p1⟩ <;> dsimp only []
    · exact error_ne_of_ne (by rw [read_uint16_error_inv h1]; decide)
    · rcases hl : smap.lookup i with _ | syl <;> dsimp only []
      · intro hc
        injection hc with hc2
        exact Err.noConfusion hc2
      · rcases hr : readSyllables data smap k p1 with e | ⟨syls, p2⟩ <;>
          dsimp only []
        · intro hc
          injection hc with hc2
          subst hc2
          exact ih p1 hr
        · intro hc
          cases hc

theorem readWords_ne_fuelOut (data : List Nat) (spell : Str) (useFreq : Bool) :
    ∀ (k pos : Nat),
      readWords data spell useFreq k pos ≠ Except.error Err.fuelOut := by
  intro k
  induction k with
  | zero =>
    intro pos
    simp [readWords]
  | succ k ih =>
    intro pos
    simp only [readWords]
    rcases h1 : read_uint16 data pos with e | ⟨char_cnt, p1⟩ <;> dsimp only []
    · exact error_ne_of_ne (by rw [read_uint16_error_inv h1]; decide)
    · rcases h2 : read_utf16_str data none p1 char_cnt with e | ⟨word, p2⟩ <;>
        dsimp only []
      · exact error_ne_of_ne (by rw [read_utf16_str_error_inv h2]; decide)
      · cases useFreq with
        | true =>
          dsimp only []
          rcases h3 : read_uint16 data (skipBytes data p2 2) with e | ⟨freq, p4⟩ <;>
            dsimp only []
          · exact error_ne_of_ne (by rw [read_uint16_error_inv h3]; decide)
          · rcases h4 : readWords data spell true k (skipBytes data p4 8)
              with e | ⟨ws, p6⟩ <;> dsimp only []
            · intro hc
              injection hc with hc2
              subst hc2
              exact ih (skipBytes data p4 8) h4
            · intro hc
              cases hc
        | false =>
          dsimp only []
          rcases h4 : readWords data spell false k (skipBytes data p2 12)
            with e | ⟨ws, p4⟩ <;> dsimp only []
          · intro hc
            injection hc with hc2
            subst hc2
            exact ih (skipBytes data p2 12) h4
          · intro hc
            cases hc

theorem parseBlock_ne_fuelOut (data : List Nat) (smap : List (Nat × Str))
    (useFreq : Bool) (pos : Nat) :
    parseBlock data smap useFreq pos ≠ Except.error Err.fuelOut := by
  unfold parseBlock
  rcases h1 : read_uint16 data pos with e | ⟨word_cnt, p1⟩ <;> dsimp only []
  · exact error_ne_of_ne (by rw [read_uint16_error_inv h1]; decide)
  · rcases h2 : read_uint16 data p1 with e | ⟨syllable_cnt, p2⟩ <;> dsimp only []
    · exact error_ne_of_ne (by rw [read_uint16_error_inv h2]; decide)
    · rcases h3 : readSyllables data smap (syllable_cnt / 2) p2
        with e | ⟨syls, p3⟩ <;> dsimp only []
      · intro hc
        injection hc with hc2
        subst hc2
        exact readSyllables_ne_fuelOut data smap (syllable_cnt / 2) p2 h3
      · exact readWords_ne_fuelOut data (joinSep 32 syls) useFreq word_cnt p3

theorem parseBlock_ok_inv {data : List Nat} {smap : List (Nat × Str)}
    {useFreq : Bool} {pos : Nat} {ws : List WordRec} {p' : Nat}
    (h : parseBlock data smap useFreq pos = Except.ok (ws, p')) :
    pos + 4 ≤ p' ∧ p' ≤ data.length := by
  unfold parseBlock at h
  rcases h1 : read_uint16 data pos with e | ⟨word_cnt, p1⟩ <;>
    rw [h1] at h <;> dsimp only [] at h
  · cases h
  · rcases h2 : read_uint16 data p1 with e | ⟨syllable_cnt, p2⟩ <;>
      rw [h2] at h <;> dsimp only [] at h
    · cases h
    · rcases h3 : readSyllables data smap (syllable_cnt / 2) p2
        with e | ⟨syls, p3⟩ <;> rw [h3] at h <;> dsimp only [] at h
      · cases h
      · obtain ⟨ha1, ha2, _⟩ := read_uint16_ok_inv h1
        obtain ⟨hb1, hb2, _⟩ := read_uint16_ok_inv h2
        obtain ⟨hc1, hc2⟩ := readSyllables_ok_inv data smap (syllable_cnt / 2) p2 h3
        obtain ⟨_, _, hd1, hd2⟩ := readWords_ok_inv data (joinSep 32 syls) useFreq word_cnt p3 h
        omega

theorem parseBlock_error_short (data : List Nat) (smap : List (Nat × Str))
    (useFreq : Bool) (pos : Nat) (h : data.length < pos + 2) :
    parseBlock data smap useFreq pos = Except.error Err.structError := by
  unfold parseBlock
  rw [read_uint16_eq_error data pos h]

theorem wordLoop_at_fs (data : List Nat) (file_size : Nat)
    (smap : List (Nat × Str)) (useFreq : Bool) (fuel : Nat) (acc : List WordRec) :
    wordLoop data file_size smap useFreq fuel file_size acc =
      Except.ok (acc, file_size) := by
  cases fuel <;> simp [wordLoop]

theorem wordLoop_short (data : List Nat) (file_size : Nat)
    (smap : List (Nat × Str)) (useFreq : Bool) (fuel pos : Nat)
    (acc : List WordRec) (hp : pos ≠ file_size) (hlen : data.length < pos + 2) :
    wordLoop data file_size smap useFreq (fuel + 1) pos acc =
      Except.error Err.structError := by
  simp only [wordLoop, if_neg hp,
    parseBlock_error_short data smap useFreq pos hlen]

theorem wordLoop_ne_fuelOut_aux (data : List Nat) (file_size : Nat)
    (smap : List (Nat × Str)) (useFreq : Bool) :
    ∀ (fuel pos : Nat) (acc : List WordRec), pos ≤ data.length →
      data.length + 1 ≤ pos + 4 * fuel →
      wordLoop data file_size smap useFreq fuel pos acc ≠
        Except.error Err.fuelOut := by
  intro fuel
  induction fuel with
  | zero =>
    intro pos acc h1 h2
    omega
  | succ fuel ih =>
    intro pos acc h1 h2
    simp only [wordLoop]
    by_cases hp : pos = file_size
    · simp [hp]
    · rw [if_neg hp]
      rcases hb : parseBlock data smap useFreq pos with e | ⟨ws, p1⟩ <;>
        dsimp only []
      · intro hc
        injection hc with hc2
        subst hc2
        exact parseBlock_ne_fuelOut data smap useFreq pos hb
      · obtain ⟨hb1, hb2⟩ := parseBlock_ok_inv hb
        exact ih p1 (acc ++ ws) (by omega) (by omega)

theorem word_table_ne_fuelOut (data : List Nat) (file_size hz_offset : Nat)
    (smap : List (Nat × Str)) (useFreq : Bool) :
    word_table data file_size hz_offset smap useFreq ≠
      Except.error Err.fuelOut := by
  unfold word_table
  have hloop : wordLoop data file_size smap useFreq (data.length + 1) hz_offset [] ≠
      Except.error Err.fuelOut := by
    by_cases hle : hz_offset ≤ data.length
    · exact wordLoop_ne_fuelOut_aux data file_size smap useFreq
        (data.length + 1) hz_offset [] hle (by omega)
    · by_cases hp : hz_offset = file_size
      · rw [hp, wordLoop_at_fs]
        intro hc
        cases hc
      · rw [wordLoop_short data file_size smap useFreq data.length hz_offset []
          hp (by omega)]
        exact error_ne_of_ne (by decide)
  rcases hw : wordLoop data file_size smap useFreq (data.length + 1) hz_offset []
    with e | ⟨ws, p⟩ <;> dsimp only []
  · intro hc
    injection hc with hc2
    subst hc2
    exact hloop hw
  · intro hc
    cases hc

/-- A word-table region whose single homophone block declares a 12-byte
extension region of which only 11 bytes exist before end of file: the
block's declared layout ends one byte past the file size of 21. -/
def overByOneStream : List Nat :=
  [1, 0, 2, 0, 0, 0, 2, 0, 97, 0] ++ List.replicate 11 0

/-- C1, counterexample: the word-table decoder does not fail when the
final block ends one byte over the file size.  On this 21-byte stream the
single block needs 22 bytes, yet the trailing discarded extension read is
silently clipped to 11 bytes, the cursor lands exactly on the file size,
and decoding succeeds with the one record. -/
theorem C1_counterexample :
    word_table overByOneStream 21 0 [(0, [97])] false =
      Except.ok [⟨[97], [97], none⟩] := by
  rfl

/-- C1, amended: the word-table loop runs until the cursor equals the
given file size, and exact equality is its only success exit: fuel never
runs out (the decoder cannot loop forever), landing at the file size
returns the accumulated records with no further reads, and a final block
that ends one byte short of the file size makes the next iteration fail
on its 16-bit word-count read with the truncated-read error
(`struct.error`) — not a dedicated corrupt-word-table error.  A block
whose declared layout ends one byte past end of file is not always
detected (see the counterexample). -/
theorem C1_word_table_eof_alignment :
    (∀ (data : List Nat) (file_size hz_offset : Nat) (smap : List (Nat × Str))
        (useFreq : Bool),
      word_table data file_size hz_offset smap useFreq ≠
        Except.error Err.fuelOut) ∧
    (∀ (data : List Nat) (file_size : Nat) (smap : List (Nat × Str))
        (useFreq : Bool) (fuel pos : Nat) (acc : List WordRec),
      pos ≠ file_size → data.length < pos + 2 →
      wordLoop data file_size smap useFreq (fuel + 1) pos acc =
        Except.error Err.structError) ∧
    (∀ (data : List Nat) (file_size : Nat) (smap : List (Nat × Str))
        (useFreq : Bool) (fuel : Nat) (acc : List WordRec),
      wordLoop data file_size smap useFreq fuel file_size acc =
        Except.ok (acc, file_size)) := by
  refine ⟨?_, ?_, ?_⟩
  · intro data file_size hz_offset smap useFreq
    exact word_table_ne_fuelOut data file_size hz_offset smap useFreq
  · intro data file_size smap useFreq fuel pos acc hp hlen
    exact wordLoop_short data file_size smap useFreq fuel pos acc hp hlen
  · intro data file_size smap useFreq fuel acc
    exact wordLoop_at_fs data file_size smap useFreq fuel acc

theorem C1_word_table_eof_alignment_witness :
    (0 : Nat) ≠ 1 ∧ ([] : List Nat).length < 0 + 2 ∧
    wordLoop [] 1 [] false (0 + 1) 0 [] = Except.error Err.structError ∧
    wordLoop [] 5 [] false 3 5 [] = Except.ok ([], 5) ∧
    word_table [] 0 0 [] false ≠ Except.error Err.fuelOut :=
  ⟨by decide, by decide,
    C1_word_table_eof_alignment.2.1 [] 1 [] false 0 0 [] (by decide) (by decide),
    C1_word_table_eof_alignment.2.2 [] 5 [] false 3 [],
    C1_word_table_eof_alignment.1 [] 0 0 [] false⟩

/-- C2: on a stream with at least 5 bytes past the cursor, the header
classifier returns word-table offset `0x2628` when the byte at index 4 of
the 128-byte header read is `0x44`, offset `0x26C4` when it is `0x45`,
and fails with the unknown-mask error carrying the observed byte for any
other value; in every case its only other effect is advancing the cursor
by the number of header bytes actually read. -/
theorem C2_header_mask_classification (data : List Nat) (pos : Nat)
    (h : pos + 5 ≤ data.length) :
    (data.getD (pos + 4) 0 = 0x44 →
      get_hz_offset data pos =
        Except.ok (0x2628, pos + min 128 (data.length - pos))) ∧
    (data.getD (pos + 4) 0 = 0x45 →
      get_hz_offset data pos =
        Except.ok (0x26C4, pos + min 128 (data.length - pos))) ∧
    (data.getD (pos + 4) 0 ≠ 0x44 → data.getD (pos + 4) 0 ≠ 0x45 →
      get_hz_offset data pos =
        Except.error (Err.unknownMask (data.getD (pos + 4) 0))) := by
  have h4 : pos + 4 < data.length := by omega
  have hidx : ((data.drop pos).take 128)[4]? = some (data.getD (pos + 4) 0) := by
    rw [List.getElem?_take, if_pos (by omega), List.getElem?_drop,
      List.getElem?_eq_getElem h4, List.getD_eq_getElem data 0 h4]
  refine ⟨?_, ?_, ?_⟩
  · intro hm
    simp only [get_hz_offset, readBytes, hidx, List.length_take,
      List.length_drop, hm]
    simp
  · intro hm
    simp only [get_hz_offset, readBytes, hidx, List.length_take,
      List.length_drop, hm]
    simp
  · intro hm1 hm2
    simp only [get_hz_offset, readBytes, hidx, List.length_take,
      List.length_drop]
    have hm1' : data[pos + 4]?.getD 0 ≠ 68 := by simpa [List.getD] using hm1
    have hm2' : data[pos + 4]?.getD 0 ≠ 69 := by simpa [List.getD] using hm2
    simp [hm1', hm2']

theorem C2_header_mask_classification_witness :
    0 + 5 ≤ ([0, 0, 0, 0, 0x44] : List Nat).length ∧
    ([0, 0, 0, 0, 0x44] : List Nat).getD (0 + 4) 0 = 0x44 ∧
    get_hz_offset [0, 0, 0, 0, 0x44] 0 =
      Except.ok (0x2628, 0 + min 128 (([0, 0, 0, 0, 0x44] : List Nat).length - 0)) :=
  ⟨by decide, by decide,
    (C2_header_mask_classification [0, 0, 0, 0, 0x44] 0 (by decide)).1 (by decide)⟩

/-- C5, counterexample: with only 2 bytes remaining and byte length 4,
the fixed-length string reader does not fail with a truncated-input
error; it silently decodes the two available bytes and succeeds. -/
theorem C5_counterexample :
    ([97, 0] : List Nat).length < 0 + 4 ∧
    read_utf16_str [97, 0] none 0 4 = Except.ok ([97], 2) :=
  ⟨by decide, by rfl⟩

/-- C5, amended: the fixed-length UTF-16LE reader reads up to
`byte_length` bytes — exactly `byte_length` when that many remain, in
which case an odd `byte_length` always fails with the invalid-encoding
error — decodes whatever bytes it obtained, strips trailing NUL code
points, and its only failure mode is the invalid-encoding error from the
UTF-16LE decode of the bytes actually read; a short read is not detected
and never raises a truncated-input error. -/
theorem C5_read_utf16_str_behavior :
    (∀ (data : List Nat) (pos size : Nat), size % 2 = 1 →
      pos + size ≤ data.length →
      read_utf16_str data none pos size = Except.error Err.unicodeDecodeError) ∧
    (∀ (data : List Nat) (pos size : Nat) (s : Str) (p2 : Nat),
      read_utf16_str data none pos size = Except.ok (s, p2) →
      p2 = pos + min size (data.length - pos) ∧ s.getLast? ≠ some 0) ∧
    (∀ (data : List Nat) (pos size : Nat) (e : Err),
      read_utf16_str data none pos size = Except.error e →
      e = Err.unicodeDecodeError) := by
  refine ⟨?_, ?_, ?_⟩
  · intro data pos size hodd hle
    rw [read_utf16_str_eq]
    have hchunk : ((data.drop pos).take size).length = size := by
      simp only [List.length_take, List.length_drop]
      omega
    have hu : utf16Units ((data.drop pos).take size) = none :=
      utf16Units_none_of_odd _ (by rw [hchunk]; exact hodd)
    have hd : decodeUtf16 ((data.drop pos).take size) = none := by
      simp [decodeUtf16, hu]
    rw [hd]
  · intro data pos size s p2 h
    refine ⟨read_utf16_str_ok_inv h, ?_⟩
    rw [read_utf16_str_eq] at h
    rcases hd : decodeUtf16 ((data.drop pos).take size) with _ | cs <;>
      rw [hd] at h <;> dsimp only [] at h
    · cases h
    · simp only [Except.ok.injEq, Prod.mk.injEq] at h
      obtain ⟨hs, _⟩ := h
      subst hs
      exact rstripNul_no_trailing cs
  · intro data pos size e h
    exact read_utf16_str_error_inv h

theorem C5_read_utf16_str_behavior_witness :
    (1 : Nat) % 2 = 1 ∧ 0 + 1 ≤ ([97] : List Nat).length ∧
    read_utf16_str [97] none 0 1 = Except.error Err.unicodeDecodeError ∧
    read_utf16_str [97, 0] none 0 2 = Except.ok ([97], 2) ∧
    ((2 : Nat) = 0 + min 2 (([97, 0] : List Nat).length - 0) ∧
      ([97] : Str).getLast? ≠ some 0) :=
  ⟨by decide, by decide,
    C5_read_utf16_str_behavior.1 [97] 0 1 (by decide) (by decide),
    by rfl,
    C5_read_utf16_str_behavior.2.1 [97, 0] 0 2 [97] 2 (by rfl)⟩

/-- C3: every successfully parsed homophone block appends exactly the
declared word count of records, and every record's romanization equals
the space-joined list of the syllable mapping's values at the block's
parsed syllable indices, in the order the indices appeared. -/
theorem C3_block_records (data : List Nat) (smap : List (Nat × Str))
    (useFreq : Bool) (pos word_cnt p1 syllable_cnt p2 : Nat)
    (idxs : List Nat) (p3 : Nat) (ws : List WordRec) (p' : Nat)
    (h1 : read_uint16 data pos = Except.ok (word_cnt, p1))
    (h2 : read_uint16 data p1 = Except.ok (syllable_cnt, p2))
    (h3 : readIndices data (syllable_cnt / 2) p2 = Except.ok (idxs, p3))
    (h4 : parseBlock data smap useFreq pos = Except.ok (ws, p')) :
    ws.length = word_cnt ∧
    ∀ r ∈ ws,
      r.spell = joinSep 32 (idxs.map fun i => (smap.lookup i).getD []) := by
  unfold parseBlock at h4
  rw [h1] at h4
  dsimp only [] at h4
  rw [h2] at h4
  dsimp only [] at h4
  rcases h5 : readSyllables data smap (syllable_cnt / 2) p2 with e | ⟨syls, q⟩ <;>
    rw [h5] at h4 <;> dsimp only [] at h4
  · cases h4
  · obtain ⟨hq, hsyls⟩ :=
      readSyllables_of_readIndices data smap (syllable_cnt / 2) p2 h3 h5
    subst hsyls
    obtain ⟨hlen, hsp, _, _⟩ :=
      readWords_ok_inv data _ useFreq word_cnt q h4
    exact ⟨hlen, hsp⟩

/-- A homophone block declaring one word over the two syllable indices 3
and 7, followed by the word text and a 12-byte extension region. -/
def niHaoStream : List Nat :=
  [1, 0, 4, 0, 3, 0, 7, 0, 2, 0, 97, 0] ++ List.replicate 12 0

/-- A syllable mapping sending index 3 to the text ni and index 7 to the
text hao. -/
def niHaoMap : List (Nat × Str) := [(3, [110, 105]), (7, [104, 97, 111])]

theorem C3_block_records_witness :
    read_uint16 niHaoStream 0 = Except.ok (1, 2) ∧
    read_uint16 niHaoStream 2 = Except.ok (4, 4) ∧
    readIndices niHaoStream 2 4 = Except.ok ([3, 7], 8) ∧
    parseBlock niHaoStream niHaoMap false 0 =
      Except.ok ([⟨[97], [110, 105, 32, 104, 97, 111], none⟩], 24) ∧
    ([⟨[97], [110, 105, 32, 104, 97, 111], none⟩] : List WordRec).length = 1 ∧
    ∀ r ∈ ([⟨[97], [110, 105, 32, 104, 97, 111], none⟩] : List WordRec),
      r.spell = joinSep 32 ([3, 7].map fun i => (niHaoMap.lookup i).getD []) :=
  ⟨by rfl, by rfl, by rfl, by rfl,
    (C3_block_records niHaoStream niHaoMap false 0 1 2 4 4 [3, 7] 8
      [⟨[97], [110, 105, 32, 104, 97, 111], none⟩] 24
      (by rfl) (by rfl) (by rfl) (by rfl)).1,
    (C3_block_records niHaoStream niHaoMap false 0 1 2 4 4 [3, 7] 8
      [⟨[97], [110, 105, 32, 104, 97, 111], none⟩] 24
      (by rfl) (by rfl) (by rfl) (by rfl)).2⟩

/-- C8: a homophone block reads syllable_byte_count / 2 sixteen-bit
syllable indices consuming exactly two bytes each, and when any of them
is missing from the syllable mapping the whole block parse fails with the
unknown-index error carrying the first offending index in parse order, so
no record of that block is produced. -/
theorem C8_unknown_syllable_index (data : List Nat) (smap : List (Nat × Str))
    (useFreq : Bool) (pos word_cnt p1 syllable_cnt p2 : Nat) (idxs : List Nat)
    (p3 i0 : Nat)
    (h1 : read_uint16 data pos = Except.ok (word_cnt, p1))
    (h2 : read_uint16 data p1 = Except.ok (syllable_cnt, p2))
    (h3 : readIndices data (syllable_cnt / 2) p2 = Except.ok (idxs, p3)) :
    (idxs.length = syllable_cnt / 2 ∧ p3 = p2 + 2 * (syllable_cnt / 2)) ∧
    (idxs.find? (fun i => (smap.lookup i).isNone) = some i0 →
      parseBlock data smap useFreq pos =
        Except.error (Err.unknownSyllableIndex i0)) := by
  refine ⟨readIndices_ok_inv data (syllable_cnt / 2) p2 h3, ?_⟩
  intro hf
  unfold parseBlock
  rw [h1]
  dsimp only []
  rw [h2]
  dsimp only []
  rw [readSyllables_error_of_find data smap (syllable_cnt / 2) p2 h3 hf]

theorem C8_unknown_syllable_index_witness :
    read_uint16 [1, 0, 2, 0, 5, 0] 0 = Except.ok (1, 2) ∧
    read_uint16 [1, 0, 2, 0, 5, 0] 2 = Except.ok (2, 4) ∧
    readIndices [1, 0, 2, 0, 5, 0] 1 4 = Except.ok ([5], 6) ∧
    (([5] : List Nat).length = 2 / 2 ∧ 6 = 4 + 2 * (2 / 2)) ∧
    ([5].find? (fun i => (([(0, [97])] : List (Nat × Str)).lookup i).isNone) =
      some 5 →
      parseBlock [1, 0, 2, 0, 5, 0] [(0, [97])] false 0 =
        Except.error (Err.unknownSyllableIndex 5)) :=
  ⟨by rfl, by rfl, by rfl,
    (C8_unknown_syllable_index [1, 0, 2, 0, 5, 0] [(0, [97])] false 0 1 2 2 4
      [5] 6 5 (by rfl) (by rfl) (by rfl)).1,
    (C8_unknown_syllable_index [1, 0, 2, 0, 5, 0] [(0, [97])] false 0 1 2 2 4
      [5] 6 5 (by rfl) (by rfl) (by rfl)).2⟩

theorem syllableLoop_ok_inv (data : List Nat) :
    ∀ (fuel pos cnt : Nat) (acc m : List (Nat × Str)) (p' : Nat),
      syllableLoop data fuel pos cnt acc = Except.ok (m, p') →
      ∃ extra, m = acc ++ extra ∧ extra ≠ [] ∧
        extra.map Prod.fst = List.range' cnt extra.length ∧
        (extra.map Prod.snd).getLast? = some zuo ∧
        ∀ s ∈ (extra.map Prod.snd).dropLast, s ≠ zuo := by
  intro fuel
  induction fuel with
  | zero =>
    intro pos cnt acc m p' h
    simp [syllableLoop] at h
  | succ fuel ih =>
    intro pos cnt acc m p' h
    simp only [syllableLoop] at h
    rcases h1 : read_uint16 data pos with e | ⟨index, p1⟩ <;>
      rw [h1] at h <;> dsimp only [] at h
    · cases h
    · rcases h2 : read_uint16 data p1 with e | ⟨len2, p2⟩ <;>
        rw [h2] at h <;> dsimp only [] at h
      · cases h
      · rcases h3 : read_utf16_str data none p2 len2 with e | ⟨syl, p3⟩ <;>
          rw [h3] at h <;> dsimp only [] at h
        · cases h
        · by_cases hic : index = cnt
          · rw [if_pos hic] at h
            subst hic
            by_cases hz : syl = zuo
            · rw [if_pos hz] at h
              subst hz
              simp only [Except.ok.injEq, Prod.mk.injEq] at h
              obtain ⟨hm, hp⟩ := h
              subst hm
              exact ⟨[(index, zuo)], rfl, by simp, by simp [List.range'],
                by simp, by simp⟩
            · rw [if_neg hz] at h
              obtain ⟨extra, hm, hne, hfst, hlast, hdrop⟩ :=
                ih p3 (index + 1) (acc ++ [(index, syl)]) m p' h
              refine ⟨(index, syl) :: extra, by rw [hm]; simp, by simp,
                ?_, ?_, ?_⟩
              · simp only [List.map_cons, List.length_cons, List.range'_succ]
                rw [hfst]
              · rcases extra with _ | ⟨e, es⟩
                · exact absurd rfl hne
                · simpa using hlast
              · rcases extra with _ | ⟨e, es⟩
                · exact absurd rfl hne
                · simp only [List.map_cons, List.dropLast_cons₂] at hdrop ⊢
                  intro s hs
                  cases hs with
                  | head => exact hz
                  | tail b hs => exact hdrop s hs
          · rw [if_neg hic] at h
            cases h

/-- C4: the syllable-table loop enforces strictly sequential indexing —
any parsed index different from the running zero-based counter makes it
fail at once with the assertion error — and consequently every mapping it
returns from counter 0 has exactly the index sequence 0, 1, ..., N-1 with
no gaps, where N is the number of entries at the moment the sentinel
syllable was read (the last returned value is the sentinel);
`syllable_table` is this loop started at the fixed table offset. -/
theorem C4_sequential_syllable_indices :
    (∀ data, syllable_table data =
      syllableLoop data (data.length + 1) (0x1540 + 4) 0 []) ∧
    (∀ (data : List Nat) (fuel pos : Nat) (m : List (Nat × Str)) (p' : Nat),
      syllableLoop data fuel pos 0 [] = Except.ok (m, p') →
      m.map Prod.fst = List.range m.length ∧
        (m.map Prod.snd).getLast? = some zuo) ∧
    (∀ (data : List Nat) (fuel pos cnt : Nat) (acc : List (Nat × Str))
        (i p1 len2 p2 : Nat) (syl : Str) (p3 : Nat),
      read_uint16 data pos = Except.ok (i, p1) →
      read_uint16 data p1 = Except.ok (len2, p2) →
      read_utf16_str data none p2 len2 = Except.ok (syl, p3) →
      i ≠ cnt →
      syllableLoop data (fuel + 1) pos cnt acc =
        Except.error Err.assertionError) := by
  refine ⟨fun data => rfl, ?_, ?_⟩
  · intro data fuel pos m p' h
    obtain ⟨extra, hm, hne, hfst, hlast, _⟩ :=
      syllableLoop_ok_inv data fuel pos 0 [] m p' h
    rw [List.nil_append] at hm
    subst hm
    exact ⟨by rw [hfst, List.range_eq_range'], hlast⟩
  · intro data fuel pos cnt acc i p1 len2 p2 syl p3 h1 h2 h3 hic
    simp only [syllableLoop]
    rw [h1]
    dsimp only []
    rw [h2]
    dsimp only []
    rw [h3]
    dsimp only []
    rw [if_neg hic]

theorem C4_sequential_syllable_indices_witness :
    syllable_table [9] = syllableLoop [9] 2 (0x1540 + 4) 0 [] ∧
    (syllableLoop [0, 0, 2, 0, 97, 0, 1, 0, 6, 0, 122, 0, 117, 0, 111, 0]
        5 0 0 [] = Except.ok ([(0, [97]), (1, [122, 117, 111])], 16) ∧
      ([(0, [97]), (1, [122, 117, 111])].map Prod.fst = List.range 2 ∧
        ([(0, [97]), (1, [122, 117, 111])].map
          (Prod.snd (α := Nat) (β := Str))).getLast? = some zuo)) ∧
    (read_uint16 [1, 0, 2, 0, 97, 0] 0 = Except.ok (1, 2) ∧
      read_uint16 [1, 0, 2, 0, 97, 0] 2 = Except.ok (2, 4) ∧
      read_utf16_str [1, 0, 2, 0, 97, 0] none 4 2 = Except.ok ([97], 6) ∧
      (1 : Nat) ≠ 0 ∧
      syllableLoop [1, 0, 2, 0, 97, 0] (0 + 1) 0 0 [] =
        Except.error Err.assertionError) :=
  ⟨C4_sequential_syllable_indices.1 [9],
    ⟨by rfl,
      by
        have hm := C4_sequential_syllable_indices.2.1
          [0, 0, 2, 0, 97, 0, 1, 0, 6, 0, 122, 0, 117, 0, 111, 0] 5 0
          [(0, [97]), (1, [122, 117, 111])] 16 (by rfl)
        simpa using hm⟩,
    ⟨by rfl, by rfl, by rfl, by decide,
      C4_sequential_syllable_indices.2.2 [1, 0, 2, 0, 97, 0] 0 0 0 [] 1 2 2 4
        [97] 6 (by rfl) (by rfl) (by rfl) (by decide)⟩⟩

theorem drop_congr (k : Nat) {d1 d2 : List Nat} (hd : d1.drop k = d2.drop k)
    (pos : Nat) (hp : k ≤ pos) : d1.drop pos = d2.drop pos := by
  have h1 : (d1.drop k).drop (pos - k) = d1.drop pos := by
    rw [List.drop_drop]
    congr 1
    omega
  have h2 : (d2.drop k).drop (pos - k) = d2.drop pos := by
    rw [List.drop_drop]
    congr 1
    omega
  rw [← h1, ← h2, hd]

theorem read_uint16_congr (k : Nat) {d1 d2 : List Nat}
    (hd : d1.drop k = d2.drop k) (pos : Nat) (hp : k ≤ pos) :
    read_uint16 d1 pos = read_uint16 d2 pos := by
  unfold read_uint16
  rw [drop_congr k hd pos hp]

theorem read_utf16_str_congr (k : Nat) {d1 d2 : List Nat}
    (hd : d1.drop k = d2.drop k) (pos size : Nat) (hp : k ≤ pos) :
    read_utf16_str d1 none pos size = read_utf16_str d2 none pos size := by
  unfold read_utf16_str readBytes
  dsimp only []
  simp only [Option.getD_none]
  rw [drop_congr k hd pos hp]

theorem syllableLoop_congr (k : Nat) {d1 d2 : List Nat}
    (hd : d1.drop k = d2.drop k) :
    ∀ (fuel pos cnt : Nat) (acc : List (Nat × Str)), k ≤ pos →
      syllableLoop d1 fuel pos cnt acc = syllableLoop d2 fuel pos cnt acc := by
  intro fuel
  induction fuel with
  | zero =>
    intro pos cnt acc hp
    rfl
  | succ fuel ih =>
    intro pos cnt acc hp
    simp only [syllableLoop]
    rw [read_uint16_congr k hd pos hp]
    rcases h1 : read_uint16 d2 pos with e | ⟨index, p1⟩
    · rfl
    · dsimp only []
      obtain ⟨ha1, _, _⟩ := read_uint16_ok_inv h1
      have hp1 : k ≤ p1 := by omega
      rw [read_uint16_congr k hd p1 hp1]
      rcases h2 : read_uint16 d2 p1 with e | ⟨len2, p2⟩
      · rfl
      · dsimp only []
        obtain ⟨hb1, _, _⟩ := read_uint16_ok_inv h2
        have hp2 : k ≤ p2 := by omega
        rw [read_utf16_str_congr k hd p2 len2 hp2]
        rcases h3 : read_utf16_str d2 none p2 len2 with e | ⟨syl, p3⟩
        · rfl
        · dsimp only []
          have hc1 := read_utf16_str_ok_inv h3
          have hp3 : k ≤ p3 := by omega
          by_cases hic : index = cnt
          · by_cases hz : syl = zuo
            · simp only [if_pos hic, if_pos hz]
            · simp only [if_pos hic, if_neg hz]
              exact ih p3 (cnt + 1) (acc ++ [(index, syl)]) hp3
          · simp only [if_neg hic]

/-- C6: the syllable-table decoder's result depends only on the bytes
from absolute offset `0x1540 + 4` on — in particular the 4-byte count
field right before that offset is never consulted — and when the loop
started at counter 0 succeeds, the sentinel syllable zuo is the value of
the last returned entry and of no earlier entry: parsing stops with the
sentinel included and reads no entry beyond it. -/
theorem C6_sentinel_termination :
    (∀ d1 d2 : List Nat, d1.length = d2.length →
      d1.drop (0x1540 + 4) = d2.drop (0x1540 + 4) →
      syllable_table d1 = syllable_table d2) ∧
    (∀ (data : List Nat) (fuel pos : Nat) (m : List (Nat × Str)) (p' : Nat),
      syllableLoop data fuel pos 0 [] = Except.ok (m, p') →
      (m.map Prod.snd).getLast? = some zuo ∧
        ∀ s ∈ (m.map Prod.snd).dropLast, s ≠ zuo) := by
  constructor
  · intro d1 d2 hlen hdrop
    unfold syllable_table
    rw [syllableLoop_congr (0x1540 + 4) hdrop (d1.length + 1) (0x1540 + 4) 0 []
      (le_refl _), hlen]
  · intro data fuel pos m p' h
    obtain ⟨extra, hm, _, _, hlast, hdropl⟩ :=
      syllableLoop_ok_inv data fuel pos 0 [] m p' h
    rw [List.nil_append] at hm
    subst hm
    exact ⟨hlast, hdropl⟩

theorem C6_sentinel_termination_witness :
    ([1] : List Nat).length = ([2] : List Nat).length ∧
    ([1] : List Nat).drop (0x1540 + 4) = ([2] : List Nat).drop (0x1540 + 4) ∧
    syllable_table [1] = syllable_table [2] ∧
    syllableLoop [0, 0, 6, 0, 122, 0, 117, 0, 111, 0] 3 0 0 [] =
      Except.ok ([(0, [122, 117, 111])], 10) ∧
    (([(0, [122, 117, 111])].map
        (Prod.snd (α := Nat) (β := Str))).getLast? = some zuo ∧
      ∀ s ∈ (([(0, [122, 117, 111])].map
        (Prod.snd (α := Nat) (β := Str)))).dropLast, s ≠ zuo) :=
  ⟨by rfl, by rfl,
    C6_sentinel_termination.1 [1] [2] (by rfl) (by rfl),
    by rfl,
    C6_sentinel_termination.2 [0, 0, 6, 0, 122, 0, 117, 0, 111, 0] 3 0
      [(0, [122, 117, 111])] 10 (by rfl)⟩

/-- C7: after a word's text has been read and at least 12 bytes remain,
the frequency layout reads the 2-byte extension-length field without
validating it, reads the 16-bit little-endian frequency from the next two
bytes, discards 8 reserved bytes, and appends a three-field record whose
third field is the decimal text of the frequency; with the flag off, 12
bytes are discarded and a two-field record (no frequency) is appended.
Both layouts leave the cursor 12 bytes past the word text. -/
theorem C7_extension_layout (data : List Nat) (spell : Str) (k pos : Nat)
    (char_cnt p1 : Nat) (word : Str) (p2 : Nat)
    (h1 : read_uint16 data pos = Except.ok (char_cnt, p1))
    (h2 : read_utf16_str data none p1 char_cnt = Except.ok (word, p2))
    (hle : p2 + 12 ≤ data.length) :
    readWords data spell true (k + 1) pos =
      Except.map (fun r => (⟨word, spell,
          some (decStr (data.getD (p2 + 2) 0 + 256 * data.getD (p2 + 3) 0))⟩
            :: r.1, r.2))
        (readWords data spell true k (p2 + 12)) ∧
    readWords data spell false (k + 1) pos =
      Except.map (fun r => (⟨word, spell, none⟩ :: r.1, r.2))
        (readWords data spell false k (p2 + 12)) := by
  have hs2 : skipBytes data p2 2 = p2 + 2 := by
    rw [skipBytes_eq]
    omega
  have hadd : p2 + 2 + 1 = p2 + 3 := by omega
  have hfreq : read_uint16 data (p2 + 2) =
      Except.ok (data.getD (p2 + 2) 0 + 256 * data.getD (p2 + 3) 0, p2 + 4) := by
    rw [read_uint16_eq_ok data (p2 + 2) (by omega), hadd]
  have hs8 : skipBytes data (p2 + 4) 8 = p2 + 12 := by
    rw [skipBytes_eq]
    omega
  have hs12 : skipBytes data p2 12 = p2 + 12 := by
    rw [skipBytes_eq]
    omega
  constructor
  · simp only [readWords]
    rw [h1]
    dsimp only []
    rw [h2]
    dsimp only []
    rw [hs2, hfreq]
    dsimp only []
    rw [hs8]
    rcases hr : readWords data spell true k (p2 + 12) with e | ⟨ws, q⟩ <;> rfl
  · simp only [readWords]
    rw [h1]
    dsimp only []
    rw [h2]
    dsimp only []
    rw [hs12]
    rcases hr : readWords data spell false k (p2 + 12) with e | ⟨ws, q⟩ <;> rfl

/-- A single word entry: 2-byte character count, the word text, then a
12-byte extension region whose frequency field holds 42. -/
def freqStream : List Nat :=
  [2, 0, 97, 0, 0, 0, 42, 0, 0, 0, 0, 0, 0, 0, 0, 0]

theorem C7_extension_layout_witness :
    read_uint16 freqStream 0 = Except.ok (2, 2) ∧
    read_utf16_str freqStream none 2 2 = Except.ok ([97], 4) ∧
    4 + 12 ≤ freqStream.length ∧
    readWords freqStream [98] true (0 + 1) 0 =
      Except.map (fun r => (⟨[97], [98],
          some (decStr (freqStream.getD (4 + 2) 0 +
            256 * freqStream.getD (4 + 3) 0))⟩ :: r.1, r.2))
        (readWords freqStream [98] true 0 (4 + 12)) ∧
    readWords freqStream [98] false (0 + 1) 0 =
      Except.map (fun r => (⟨[97], [98], none⟩ :: r.1, r.2))
        (readWords freqStream [98] false 0 (4 + 12)) ∧
    readWords freqStream [98] true (0 + 1) 0 =
      Except.ok ([⟨[97], [98], some [52, 50]⟩], 16) :=
  ⟨by rfl, by rfl, by decide,
    (C7_extension_layout freqStream [98] 0 0 2 2 [97] 4
      (by rfl) (by rfl) (by decide)).1,
    (C7_extension_layout freqStream [98] 0 0 2 2 [97] 4
      (by rfl) (by rfl) (by decide)).2,
    by rfl⟩

theorem ext_end_eq (data : List Nat) {p2 freq p4 : Nat}
    (h : read_uint16 data (skipBytes data p2 2) = Except.ok (freq, p4)) :
    skipBytes data p4 8 = skipBytes data p2 12 := by
  obtain ⟨h1, h2, _⟩ := read_uint16_ok_inv h
  rw [skipBytes_eq] at h1 h2
  rw [skipBytes_eq, skipBytes_eq]
  omega

theorem readWords_flag_rel (data : List Nat) (sp1 sp0 : Str) :
    ∀ (k pos : Nat) {ws1 : List WordRec} {q1 : Nat} {ws0 : List WordRec}
      {q0 : Nat},
      readWords data sp1 true k pos = Except.ok (ws1, q1) →
      readWords data sp0 false k pos = Except.ok (ws0, q0) →
      q1 = q0 ∧ List.Forall₂ (fun a b => a.word = b.word) ws1 ws0 := by
  intro k
  induction k with
  | zero =>
    intro pos ws1 q1 ws0 q0 h1 h0
    simp only [readWords, Except.ok.injEq, Prod.mk.injEq] at h1 h0
    obtain ⟨hw1, hq1⟩ := h1
    obtain ⟨hw0, hq0⟩ := h0
    subst hw1 hq1 hw0 hq0
    exact ⟨rfl, List.Forall₂.nil⟩
  | succ k ih =>
    intro pos ws1 q1 ws0 q0 h1 h0
    simp only [readWords] at h1 h0
    rcases hc : read_uint16 data pos with e | ⟨char_cnt, p1⟩ <;>
      rw [hc] at h1 h0 <;> dsimp only [] at h1 h0
    · cases h1
    · rcases hw : read_utf16_str data none p1 char_cnt with e | ⟨word, p2⟩ <;>
        rw [hw] at h1 h0 <;> dsimp only [] at h1 h0
      · cases h1
      · rcases hf : read_uint16 data (skipBytes data p2 2) with e | ⟨freq, p4⟩ <;>
          rw [hf] at h1 <;> dsimp only [] at h1
        · cases h1
        · rw [ext_end_eq data hf] at h1
          rcases hr1 : readWords data sp1 true k (skipBytes data p2 12)
            with e | ⟨ws1t, q1t⟩ <;> rw [hr1] at h1 <;> dsimp only [] at h1
          · cases h1
          · rcases hr0 : readWords data sp0 false k (skipBytes data p2 12)
              with e | ⟨ws0t, q0t⟩ <;> rw [hr0] at h0 <;> dsimp only [] at h0
            · cases h0
            · simp only [Except.ok.injEq, Prod.mk.injEq] at h1 h0
              obtain ⟨hw1, hq1⟩ := h1
              obtain ⟨hw0, hq0⟩ := h0
              subst hw1 hq1 hw0 hq0
              obtain ⟨hq, hrel⟩ := ih (skipBytes data p2 12) hr1 hr0
              exact ⟨hq, List.Forall₂.cons rfl hrel⟩

theorem forall₂_and_spell {c : Str} :
    ∀ {l1 l2 : List WordRec},
      List.Forall₂ (fun a b => a.word = b.word) l1 l2 →
      (∀ a ∈ l1, a.spell = c) → (∀ b ∈ l2, b.spell = c) →
      List.Forall₂ (fun a b => a.word = b.word ∧ a.spell = b.spell) l1 l2 := by
  intro l1
  induction l1 with
  | nil =>
    intro l2 h _ _
    cases h
    exact List.Forall₂.nil
  | cons a t ih =>
    intro l2 h h1 h0
    cases h with
    | cons hab hrest =>
      refine List.Forall₂.cons ⟨hab, ?_⟩ (ih hrest ?_ ?_)
      · rw [h1 a (List.mem_cons_self a t), h0 _ (List.mem_cons_self _ _)]
      · intro x hx
        exact h1 x (List.mem_cons_of_mem _ hx)
      · intro x hx
        exact h0 x (List.mem_cons_of_mem _ hx)

theorem parseBlock_flag_rel (data : List Nat) (smap : List (Nat × Str))
    (pos : Nat) {bs1 : List WordRec} {p1 : Nat} {bs0 : List WordRec} {p0 : Nat}
    (h1 : parseBlock data smap true pos = Except.ok (bs1, p1))
    (h0 : parseBlock data smap false pos = Except.ok (bs0, p0)) :
    p1 = p0 ∧
      List.Forall₂ (fun a b => a.word = b.word ∧ a.spell = b.spell) bs1 bs0 := by
  unfold parseBlock at h1 h0
  rcases hc : read_uint16 data pos with e | ⟨wc, q1⟩ <;>
    rw [hc] at h1 h0 <;> dsimp only [] at h1 h0
  · cases h1
  · rcases hs : read_uint16 data q1 with e | ⟨sc, q2⟩ <;>
      rw [hs] at h1 h0 <;> dsimp only [] at h1 h0
    · cases h1
    · rcases hsy : readSyllables data smap (sc / 2) q2 with e | ⟨syls, q3⟩ <;>
        rw [hsy] at h1 h0 <;> dsimp only [] at h1 h0
      · cases h1
      · obtain ⟨hq, hrel⟩ :=
          readWords_flag_rel data (joinSep 32 syls) (joinSep 32 syls) wc q3 h1 h0
        obtain ⟨_, hsp1, _, _⟩ :=
          readWords_ok_inv data (joinSep 32 syls) true wc q3 h1
        obtain ⟨_, hsp0, _, _⟩ :=
          readWords_ok_inv data (joinSep 32 syls) false wc q3 h0
        exact ⟨hq, forall₂_and_spell hrel hsp1 hsp0⟩

theorem wordLoop_flag_rel (data : List Nat) (fs : Nat)
    (smap : List (Nat × Str)) :
    ∀ (fuel pos : Nat) (acc1 acc0 : List WordRec) {ws1 : List WordRec}
      {q1 : Nat} {ws0 : List WordRec} {q0 : Nat},
      wordLoop data fs smap true fuel pos acc1 = Except.ok (ws1, q1) →
      wordLoop data fs smap false fuel pos acc0 = Except.ok (ws0, q0) →
      List.Forall₂ (fun a b => a.word = b.word ∧ a.spell = b.spell) acc1 acc0 →
      q1 = q0 ∧
        List.Forall₂ (fun a b => a.word = b.word ∧ a.spell = b.spell) ws1 ws0 := by
  intro fuel
  induction fuel with
  | zero =>
    intro pos acc1 acc0 ws1 q1 ws0 q0 h1 h0 hacc
    simp only [wordLoop] at h1 h0
    by_cases hp : pos = fs
    · rw [if_pos hp] at h1 h0
      simp only [Except.ok.injEq, Prod.mk.injEq] at h1 h0
      obtain ⟨hw1, hq1⟩ := h1
      obtain ⟨hw0, hq0⟩ := h0
      subst hw1 hq1 hw0 hq0
      exact ⟨rfl, hacc⟩
    · rw [if_neg hp] at h1
      cases h1
  | succ fuel ih =>
    intro pos acc1 acc0 ws1 q1 ws0 q0 h1 h0 hacc
    simp only [wordLoop] at h1 h0
    by_cases hp : pos = fs
    · rw [if_pos hp] at h1 h0
      simp only [Except.ok.injEq, Prod.mk.injEq] at h1 h0
      obtain ⟨hw1, hq1⟩ := h1
      obtain ⟨hw0, hq0⟩ := h0
      subst hw1 hq1 hw0 hq0
      exact ⟨rfl, hacc⟩
    · rw [if_neg hp] at h1 h0
      rcases hb1 : parseBlock data smap true pos with e | ⟨bs1, r1⟩ <;>
        rw [hb1] at h1 <;> dsimp only [] at h1
      · cases h1
      · rcases hb0 : parseBlock data smap false pos with e | ⟨bs0, r0⟩ <;>
          rw [hb0] at h0 <;> dsimp only [] at h0
        · cases h0
        · obtain ⟨hr, hrel⟩ := parseBlock_flag_rel data smap pos hb1 hb0
          subst hr
          exact ih r1 (acc1 ++ bs1) (acc0 ++ bs0) h1 h0
            (List.rel_append hacc hrel)

/-- C9: whenever the word-table decode succeeds on a stream both with the
frequency flag set and with it unset, the two record lists have the same
length and agree pairwise on word and romanization: the flag's only
observable effect on the records is the presence of the frequency
field (internally both layouts consume the same 12 extension bytes). -/
theorem C9_frequency_flag_equivalence (data : List Nat)
    (file_size hz_offset : Nat) (smap : List (Nat × Str))
    (rs1 rs0 : List WordRec)
    (h1 : word_table data file_size hz_offset smap true = Except.ok rs1)
    (h0 : word_table data file_size hz_offset smap false = Except.ok rs0) :
    rs1.length = rs0.length ∧
    List.Forall₂ (fun a b => a.word = b.word ∧ a.spell = b.spell) rs1 rs0 := by
  unfold word_table at h1 h0
  rcases hw1 : wordLoop data file_size smap true (data.length + 1) hz_offset []
    with e | ⟨ws1, q1⟩ <;> rw [hw1] at h1 <;> dsimp only [] at h1
  · cases h1
  · rcases hw0 : wordLoop data file_size smap false (data.length + 1) hz_offset []
      with e | ⟨ws0, q0⟩ <;> rw [hw0] at h0 <;> dsimp only [] at h0
    · cases h0
    · simp only [Except.ok.injEq] at h1 h0
      subst h1 h0
      obtain ⟨hq, hrel⟩ := wordLoop_flag_rel data file_size smap
        (data.length + 1) hz_offset [] [] hw1 hw0 List.Forall₂.nil
      exact ⟨hrel.length_eq, hrel⟩

/-- A word table of one block with one word whose extension region is
fully present: frequency field 42, eight reserved zero bytes. -/
def bothFlagsStream : List Nat :=
  [1, 0, 2, 0, 0, 0, 2, 0, 97, 0, 10, 0, 42, 0] ++ List.replicate 8 0

theorem C9_frequency_flag_equivalence_witness :
    word_table bothFlagsStream 22 0 [(0, [98])] true =
      Except.ok [⟨[97], [98], some [52, 50]⟩] ∧
    word_table bothFlagsStream 22 0 [(0, [98])] false =
      Except.ok [⟨[97], [98], none⟩] ∧
    (([⟨[97], [98], some [52, 50]⟩] : List WordRec).length =
        ([⟨[97], [98], none⟩] : List WordRec).length ∧
      List.Forall₂ (fun a b => a.word = b.word ∧ a.spell = b.spell)
        ([⟨[97], [98], some [52, 50]⟩] : List WordRec)
        ([⟨[97], [98], none⟩] : List WordRec)) :=
  ⟨by rfl, by rfl,
    C9_frequency_flag_equivalence bothFlagsStream 22 0 [(0, [98])]
      [⟨[97], [98], some [52, 50]⟩] [⟨[97], [98], none⟩] (by rfl) (by rfl)⟩

/-- C10: in the merge path, when deduplication against the existing files
of the target directory removes every record, the emitter returns without
writing: the directory state — in particular any existing file at the
target dictionary path — is returned byte-for-byte unchanged. -/
theorem C10_merge_skip_write (dict_name : Str) (records : List WordRec)
    (header : Str) (dir : List (Str × Str))
    (h : unique_words dir records = Except.ok []) :
    process_rime_dict dict_name records header dir = Except.ok dir := by
  unfold process_rime_dict
  rw [h]
  rfl

/-- A merge-target directory with one list file whose single word entry
is the text foo. -/
def dedupDir : List (Str × Str) :=
  [([120], [104, 10, 46, 46, 46, 10, 102, 111, 111, 9, 102, 10])]

theorem C10_merge_skip_write_witness :
    unique_words dedupDir [⟨[102, 111, 111], [97], none⟩] = Except.ok [] ∧
    process_rime_dict [100] [⟨[102, 111, 111], [97], none⟩] [104] dedupDir =
      Except.ok dedupDir :=
  ⟨by rfl,
    C10_merge_skip_write [100] [⟨[102, 111, 111], [97], none⟩] [104] dedupDir
      (by rfl)⟩

end Scel
